import Mathlib

/-!
Verification development for the `8i8/session` in-memory session store
(`ram/ram.go`).

The Go code is embedded shallowly:

* The session actor (`sessionServer`) serializes all table mutations; each
  command is modelled as a pure state transformer on `Store`.
* `time.Time` and `time.Duration` (int64 nanoseconds) are modelled as `Int`;
  `time.Now()` becomes an explicit `now` parameter threaded through the
  operations.  Go's `int` counters are modelled as `Nat`; the only place Go
  could go below zero (`index--`) is guarded by a successful map lookup, so
  the two agree on all states considered here.
* Go maps are reference values.  The per-session `valueStore` maps are
  therefore modelled through an explicit heap: `Session.data` holds an
  optional reference (`none` models a nil map) and the `Store` carries the
  heap of allocated value stores together with an allocation counter.
* The session map `map[uuid.UUID]Session` is modelled as an association list
  with unique keys; `mapInsert` overwrites in place, `mapErase` removes the
  entry, mirroring Go map assignment and `delete`.  Go's map iteration order
  is unspecified; the sweep is modelled as iterating over the key list in
  association-list order (one admissible order).
* `uuid.UUID` is external (github.com/google/uuid) and is modelled
  abstractly: `variantInvalid` models the result of the validity check
  `sid.Variant() == uuid.Invalid` used by the facade.
* Errors wrapped with `fmt.Errorf("%s: %w", ...)` are identified with the
  wrapped sentinel error, as `errors.Is` would.
* Logging calls are side-channel only and are omitted.
-/

/-- 128-bit session identifier, modelled abstractly.  `val` distinguishes
ids; `variantInvalid` models the external check
`sid.Variant() == uuid.Invalid` from `github.com/google/uuid`. -/
structure UUID where
  val : Nat
  variantInvalid : Bool
deriving DecidableEq

/-- Keys of the per-session value store (`map[interface{}]interface{}`;
every call site uses `string` keys). -/
abbrev Key := String

/-- Opaque `interface{}` values; no operation inspects them, so they are
modelled as `Nat`. -/
abbrev Value := Nat

/-- Reference to an allocated `valueStore` map (Go maps are references). -/
abbrev DataRef := Nat

/-- The sentinel errors of `ram.go`: `ErrNoSession`, `ErrPoorForm`,
`ErrTimedOut`, `ErrNoData`. -/
inductive GoError where
  | noSession
  | poorForm
  | timedOut
  | noData
deriving DecidableEq

/-- The `Session` struct.  `data` is a reference into the store's heap
(`none` models a nil map, the zero value); `sto` models the back pointer
`sto *Store` being non-nil. -/
structure Session where
  id : UUID
  data : Option DataRef
  created : Int
  modified : Int
  index : Nat
  sto : Bool
  maxage : Int
  active : Bool
deriving DecidableEq

/-- The zero value `Session{}`. -/
def Session.zero : Session :=
  { id := ⟨0, false⟩, data := none, created := 0, modified := 0,
    index := 0, sto := false, maxage := 0, active := false }

/-- Contents of one `valueStore` map. -/
abbrev ValueStore := List (Key × Value)

/-- The heap of allocated `valueStore` maps. -/
abbrev Heap := List (DataRef × ValueStore)

/-- The `Store` struct: session map, parallel id array, running index
counter and sweep period, plus the value-store heap and its allocation
counter (modelling Go's `make(valueStore)`). -/
structure Store where
  sessions : List (UUID × Session)
  array : List UUID
  index : Nat
  period : Int
  heap : Heap
  nextRef : DataRef
deriving DecidableEq

/-- `time.Second` in nanoseconds. -/
def second : Int := 1000000000

/-- The `divisor` package variable (`time.Duration(2)`). -/
def divisor : Int := 2

/-- The `defaultPeriod` package variable (20, in minutes). -/
def defaultPeriod : Int := 20

/-- `Init`: a fresh store with the default sweep period of 20 minutes
(the goroutines it spawns are modelled by explicit command execution). -/
def Init : Store :=
  { sessions := [], array := [], index := 0,
    period := 60 * second * defaultPeriod, heap := [], nextRef := 0 }

/-- Go map read `m[k]` returning presence (`none` for absent). -/
def mapLookup : List (UUID × Session) → UUID → Option Session
  | [], _ => none
  | p :: rest, k => if p.1 = k then some p.2 else mapLookup rest k

/-- Go map write `m[k] = v`: overwrite in place, append if absent. -/
def mapInsert : List (UUID × Session) → UUID → Session → List (UUID × Session)
  | [], k, v => [(k, v)]
  | p :: rest, k, v => if p.1 = k then (k, v) :: rest else p :: mapInsert rest k v

/-- Go map `delete(m, k)`. -/
def mapErase : List (UUID × Session) → UUID → List (UUID × Session)
  | [], _ => []
  | p :: rest, k => if p.1 = k then rest else p :: mapErase rest k

/-- The key set of the session map. -/
def mapKeys (m : List (UUID × Session)) : List UUID := m.map Prod.fst

/-- Value-store read `vs[k]`. -/
def kvLookup : ValueStore → Key → Option Value
  | [], _ => none
  | p :: rest, k => if p.1 = k then some p.2 else kvLookup rest k

/-- Value-store write `vs[k] = v`. -/
def kvInsert : ValueStore → Key → Value → ValueStore
  | [], k, v => [(k, v)]
  | p :: rest, k, v => if p.1 = k then (k, v) :: rest else p :: kvInsert rest k v

/-- Value-store `delete(vs, k)`. -/
def kvErase : ValueStore → Key → ValueStore
  | [], _ => []
  | p :: rest, k => if p.1 = k then kvErase rest k else p :: kvErase rest k

/-- Dereference a value-store reference in the heap. -/
def heapFind : Heap → DataRef → Option ValueStore
  | [], _ => none
  | p :: rest, r => if p.1 = r then some p.2 else heapFind rest r

/-- Update the value store a reference points at. -/
def heapUpdate : Heap → DataRef → (ValueStore → ValueStore) → Heap
  | [], _, _ => []
  | p :: rest, r, f => if p.1 = r then (r, f p.2) :: rest else p :: heapUpdate rest r f

/-- The contents a session's `data` reference denotes (a nil map reads as
empty). -/
def heapContents (h : Heap) (r : Option DataRef) : ValueStore :=
  match r with
  | none => []
  | some r => (heapFind h r).getD []

/-- `s.data[key] = value` through a session's map reference.  A nil map
(`none`) is left unchanged; the Go code never writes through a nil map on
the paths modelled here. -/
def heapWrite (h : Heap) (r : Option DataRef) (k : Key) (v : Value) : Heap :=
  match r with
  | none => h
  | some r => heapUpdate h r (fun vs => kvInsert vs k v)

/-- `delete(s.data, key)` through a session's map reference. -/
def heapDel (h : Heap) (r : Option DataRef) (k : Key) : Heap :=
  match r with
  | none => h
  | some r => heapUpdate h r (fun vs => kvErase vs k)

/-- `command.create`: reject if the id exists, otherwise build the session
(defaulting a non-positive maxage to `period / divisor`), store it, append
the id to the array and increment the index tally. -/
def command.create (st : Store) (key : UUID) (maxage : Int) (now : Int) :
    Store × Session :=
  if (mapLookup st.sessions key).isSome then
    (st, Session.zero)
  else
    let ref := st.nextRef
    let s0 : Session :=
      { id := key, data := some ref, created := now, modified := now,
        index := st.index, sto := true, maxage := maxage, active := true }
    let s := if maxage ≤ 0 then { s0 with maxage := Int.tdiv st.period divisor } else s0
    ({ st with sessions := mapInsert st.sessions key s,
               array := st.array ++ [key],
               index := st.index + 1,
               heap := st.heap ++ [(ref, [])],
               nextRef := st.nextRef + 1 }, s)

/-- `command.retrieve` (the `activate` command): return the stored session
with its `maxage` overwritten in the returned copy only; the table is not
modified. -/
def command.retrieve (st : Store) (key : UUID) (maxage : Int) :
    Store × Session :=
  match mapLookup st.sessions key with
  | some s => (st, { s with maxage := maxage })
  | none => (st, Session.zero)

/-- `command.touch`: refresh the stored session's modified time and return
the updated copy; absent ids yield the zero session. -/
def command.touch (st : Store) (key : UUID) (now : Int) : Store × Session :=
  match mapLookup st.sessions key with
  | some s =>
    let s' := { s with modified := now }
    ({ st with sessions := mapInsert st.sessions key s' }, s')
  | none => (st, Session.zero)

/-- The index-correction loop of `Store.destroy`: for each id of `l` (the
shifted tail of the array) decrement its stored index and write it back. -/
def decSessions (m : List (UUID × Session)) (l : List UUID) :
    List (UUID × Session) :=
  l.foldl (fun m u =>
    let s := (mapLookup m u).getD Session.zero
    mapInsert m u { s with index := s.index - 1 }) m

/-- `Store.destroy`: splice the id out of the array at its stored index,
decrement the index tally, renumber the shifted tail, then delete the map
entry.  Absent ids are a no-op. -/
def Store.destroy (st : Store) (key : UUID) : Store :=
  match mapLookup st.sessions key with
  | none => st
  | some se =>
    let arr := st.array.take se.index ++ st.array.drop (se.index + 1)
    let sessions1 := decSessions st.sessions (arr.drop se.index)
    { st with sessions := mapErase sessions1 key,
              array := arr,
              index := st.index - 1 }

/-- `command.destroy` (the `deactivate` command): destroy if present. -/
def command.destroy (st : Store) (key : UUID) : Store :=
  if (mapLookup st.sessions key).isSome then Store.destroy st key else st

/-- `command.timeout` (the `timecheck` / sweep command): destroy every
session whose idle time `now - modified` exceeds its own `maxage`,
iterating over the keys of the session map. -/
def command.timeout (st : Store) (now : Int) : Store :=
  (mapKeys st.sessions).foldl
    (fun acc key =>
      let s := (mapLookup acc.sessions key).getD Session.zero
      if now - s.modified > s.maxage then Store.destroy acc key else acc) st

/-- Two's-complement wrap into the int64 range `[-2^63, 2^63)`, modelling
overflow of Go's `int64` (and hence `time.Duration`) arithmetic. -/
def wrap64 (x : Int) : Int :=
  (x + 9223372036854775808) % 18446744073709551616 - 9223372036854775808

/-- `Store.Create`: reject a variant-invalid uuid with `ErrPoorForm`, run
the `create` command with duration `time.Duration(maxage) * time.Second`
(maxage given in seconds; the int64 multiplication wraps on overflow), map
an inactive reply to `ErrNoSession`. -/
def Store.Create (st : Store) (sid : UUID) (maxage : Int) (now : Int) :
    Store × Session × Option GoError :=
  if sid.variantInvalid then (st, Session.zero, some GoError.poorForm)
  else
    let r := command.create st sid (wrap64 (maxage * second)) now
    if !r.2.active then (r.1, Session.zero, some GoError.noSession)
    else (r.1, r.2, none)

/-- `Store.Restore`: reject a variant-invalid uuid with `ErrPoorForm`,
then run the `touch` command (the facade submits `cmd: touch`), mapping an
inactive reply to `ErrNoSession`. -/
def Store.Restore (st : Store) (sid : UUID) (now : Int) :
    Store × Session × Option GoError :=
  if sid.variantInvalid then (st, Session.zero, some GoError.poorForm)
  else
    let r := command.touch st sid now
    if !r.2.active then (r.1, Session.zero, some GoError.noSession)
    else (r.1, r.2, none)

/-- `Store.Destroy`: a variant-invalid uuid returns `ErrNoSession`;
otherwise run the `deactivate` command and return no error. -/
def Store.Destroy (st : Store) (sid : UUID) : Store × Option GoError :=
  if sid.variantInvalid then (st, some GoError.noSession)
  else (command.destroy st sid, none)

/-- `Store.Period`: set the sweep period, returning the previous value. -/
def Store.Period (st : Store) (t : Int) : Store × Int :=
  ({ st with period := t }, st.period)

/-- `Store.touch`: submit the `touch` command and return the reply. -/
def Store.touch (st : Store) (sid : UUID) (now : Int) : Store × Session :=
  command.touch st sid now

/-- `Session.Set`: fail with `ErrTimedOut` if unbound or inactive, touch
for a fresh copy, fail with `ErrTimedOut` if no longer active, otherwise
write through the fresh copy's (shared) value store. -/
def Session.Set (st : Store) (s : Session) (now : Int) (key : Key)
    (value : Value) : Store × Option GoError :=
  if !s.sto || !s.active then (st, some GoError.timedOut)
  else
    let r := Store.touch st s.id now
    if !r.2.active then (r.1, some GoError.timedOut)
    else ({ r.1 with heap := heapWrite r.1.heap r.2.data key value }, none)

/-- `Session.Get`: fail with `ErrPoorForm` if unbound or inactive, touch
for a fresh copy, fail with `ErrNoSession` if no longer active, otherwise
look the key up, failing with `ErrNoData` when absent. -/
def Session.Get (st : Store) (s : Session) (now : Int) (key : Key) :
    Store × Option Value × Option GoError :=
  if !s.sto || !s.active then (st, none, some GoError.poorForm)
  else
    let r := Store.touch st s.id now
    if !r.2.active then (r.1, none, some GoError.noSession)
    else
      match kvLookup (heapContents r.1.heap r.2.data) key with
      | some v => (r.1, some v, none)
      | none => (r.1, none, some GoError.noData)

/-- `Session.Del`: fail with `ErrPoorForm` if unbound or inactive, touch
for a fresh copy, fail with `ErrNoSession` if no longer active, otherwise
delete through the fresh copy's (shared) value store. -/
def Session.Del (st : Store) (s : Session) (now : Int) (key : Key) :
    Store × Option GoError :=
  if !s.sto || !s.active then (st, some GoError.poorForm)
  else
    let r := Store.touch st s.id now
    if !r.2.active then (r.1, some GoError.noSession)
    else ({ r.1 with heap := heapDel r.1.heap r.2.data key }, none)

/-- `Session.Valid`: the snapshot's own active flag. -/
def Session.Valid (s : Session) : Bool := s.active

/-- The table-mutating actor commands considered by the invariant claim:
`create`, `touch`, `deactivate` (destroy) and `timecheck` (sweep). -/
inductive ActorCmd where
  | create (key : UUID) (maxage : Int) (now : Int)
  | touch (key : UUID) (now : Int)
  | destroy (key : UUID)
  | sweep (now : Int)
deriving DecidableEq

/-- One step of the actor loop (`sessionServer`). -/
def execCmd (st : Store) : ActorCmd → Store
  | .create k m n => (command.create st k m n).1
  | .touch k n => (command.touch st k n).1
  | .destroy k => command.destroy st k
  | .sweep n => command.timeout st n

/-- Run the actor over a queue of commands in FIFO order. -/
def execCmds (st : Store) (cmds : List ActorCmd) : Store :=
  cmds.foldl execCmd st

/-- The table well-formedness invariant: unique keys, the key set and the
array hold the same ids, every stored session sits in the array at its
stored index, and the index tally equals both sizes. -/
def TableInv (st : Store) : Prop :=
  (mapKeys st.sessions).Nodup ∧
  st.array.Nodup ∧
  (∀ k ∈ mapKeys st.sessions, k ∈ st.array) ∧
  (∀ k ∈ st.array, k ∈ mapKeys st.sessions) ∧
  (∀ p ∈ st.sessions, st.array[p.2.index]? = some p.1) ∧
  st.index = st.array.length ∧
  st.sessions.length = st.array.length

instance (st : Store) : Decidable (TableInv st) := by
  unfold TableInv
  exact inferInstance

/-- The invariant exactly as the specification states it: every key of
`sessions` appears exactly once in `array`, at the position equal to that
session's stored `index`, and the array length, the map size and the
running `index` counter agree. -/
def ClaimInv (st : Store) : Prop :=
  (∀ k s, mapLookup st.sessions k = some s →
    st.array.count k = 1 ∧ st.array[s.index]? = some k) ∧
  st.array.length = st.sessions.length ∧
  st.sessions.length = st.index

theorem mem_mapKeys {m : List (UUID × Session)} {k : UUID} :
    k ∈ mapKeys m ↔ ∃ s, (k, s) ∈ m := by
  simp only [mapKeys, List.mem_map]
  constructor
  · rintro ⟨p, hp, rfl⟩
    exact ⟨p.2, by simpa using hp⟩
  · rintro ⟨s, hs⟩
    exact ⟨(k, s), hs, rfl⟩

theorem mapLookup_isSome_iff {m : List (UUID × Session)} {k : UUID} :
    (mapLookup m k).isSome ↔ k ∈ mapKeys m := by
  induction m with
  | nil => simp [mapLookup, mapKeys]
  | cons p rest ih =>
    simp only [mapLookup, mapKeys, List.map_cons, List.mem_cons]
    split
    · rename_i hp
      simp [hp]
    · rename_i hp
      rw [or_iff_right (fun h => hp h.symm)]
      exact ih

theorem mapLookup_eq_none_iff {m : List (UUID × Session)} {k : UUID} :
    mapLookup m k = none ↔ k ∉ mapKeys m := by
  rw [← mapLookup_isSome_iff, Option.isSome_iff_ne_none]
  tauto

theorem mapLookup_mem {m : List (UUID × Session)} {k : UUID} {s : Session}
    (h : mapLookup m k = some s) : (k, s) ∈ m := by
  induction m with
  | nil => simp [mapLookup] at h
  | cons p rest ih =>
    simp only [mapLookup] at h
    split at h
    · cases p
      simp_all
    · exact List.mem_cons_of_mem _ (ih h)

theorem mapLookup_insert_self (m : List (UUID × Session)) (k : UUID) (v : Session) :
    mapLookup (mapInsert m k v) k = some v := by
  induction m with
  | nil => simp [mapInsert, mapLookup]
  | cons p rest ih =>
    simp only [mapInsert]
    split
    · simp [mapLookup]
    · simp only [mapLookup]
      split
      · simp_all
      · exact ih

theorem mapLookup_insert_ne (m : List (UUID × Session)) (k : UUID) (v : Session)
    {k' : UUID} (h : k' ≠ k) :
    mapLookup (mapInsert m k v) k' = mapLookup m k' := by
  induction m with
  | nil => simp [mapInsert, mapLookup, Ne.symm h]
  | cons p rest ih =>
    simp only [mapInsert]
    split
    · rename_i hp
      simp [mapLookup, hp, Ne.symm h]
    · simp only [mapLookup, ih]

theorem mapKeys_insert_of_mem {m : List (UUID × Session)} {k : UUID} (v : Session)
    (h : k ∈ mapKeys m) : mapKeys (mapInsert m k v) = mapKeys m := by
  induction m with
  | nil => simp [mapKeys] at h
  | cons p rest ih =>
    by_cases hp : p.1 = k
    · simp [mapInsert, hp, mapKeys]
    · have hk : k ∈ mapKeys rest := by
        simp only [mapKeys, List.map_cons, List.mem_cons] at h
        rcases h with h | h
        · exact absurd h.symm hp
        · exact h
      simp only [mapInsert, if_neg hp, mapKeys, List.map_cons]
      rw [show List.map Prod.fst (mapInsert rest k v) = List.map Prod.fst rest from ih hk]

theorem mapKeys_insert_of_not_mem {m : List (UUID × Session)} {k : UUID} (v : Session)
    (h : k ∉ mapKeys m) : mapKeys (mapInsert m k v) = mapKeys m ++ [k] := by
  induction m with
  | nil => simp [mapKeys, mapInsert]
  | cons p rest ih =>
    have h' : k ≠ p.1 ∧ k ∉ mapKeys rest := by
      simp only [mapKeys, List.map_cons, List.mem_cons] at h
      push_neg at h
      exact h
    simp only [mapInsert, if_neg (Ne.symm h'.1), mapKeys, List.map_cons]
    rw [show List.map Prod.fst (mapInsert rest k v)
          = List.map Prod.fst rest ++ [k] from ih h'.2]
    simp

theorem mapInsert_length_of_mem {m : List (UUID × Session)} {k : UUID} (v : Session)
    (h : k ∈ mapKeys m) : (mapInsert m k v).length = m.length := by
  have h1 : (mapKeys (mapInsert m k v)).length = (mapKeys m).length := by
    rw [mapKeys_insert_of_mem v h]
  simpa [mapKeys] using h1

theorem mapInsert_length_of_not_mem {m : List (UUID × Session)} {k : UUID} (v : Session)
    (h : k ∉ mapKeys m) : (mapInsert m k v).length = m.length + 1 := by
  have h1 : (mapKeys (mapInsert m k v)).length = (mapKeys m ++ [k]).length := by
    rw [mapKeys_insert_of_not_mem v h]
  simpa [mapKeys] using h1

theorem mapErase_sublist (m : List (UUID × Session)) (k : UUID) :
    List.Sublist (mapErase m k) m := by
  induction m with
  | nil => simp [mapErase]
  | cons p rest ih =>
    simp only [mapErase]
    split
    · exact List.sublist_cons_self p rest
    · exact List.Sublist.cons₂ p ih

theorem mapLookup_erase_ne {m : List (UUID × Session)} {k k' : UUID}
    (h : k' ≠ k) : mapLookup (mapErase m k) k' = mapLookup m k' := by
  induction m with
  | nil => simp [mapErase]
  | cons p rest ih =>
    simp only [mapErase]
    split
    · rename_i hp
      simp [mapLookup, hp, Ne.symm h]
    · simp only [mapLookup, ih]

theorem mapLookup_erase_self {m : List (UUID × Session)} {k : UUID}
    (hn : (mapKeys m).Nodup) : mapLookup (mapErase m k) k = none := by
  induction m with
  | nil => simp [mapErase, mapLookup]
  | cons p rest ih =>
    simp only [mapKeys, List.map_cons, List.nodup_cons] at hn
    simp only [mapErase]
    split
    · rename_i hp
      rw [mapLookup_eq_none_iff, ← hp]
      exact hn.1
    · simp only [mapLookup]
      split
      · simp_all
      · exact ih hn.2

theorem mem_mapKeys_erase {m : List (UUID × Session)} {k k' : UUID}
    (hn : (mapKeys m).Nodup) :
    k' ∈ mapKeys (mapErase m k) ↔ k' ∈ mapKeys m ∧ k' ≠ k := by
  constructor
  · intro h
    have hsub : List.Sublist (mapKeys (mapErase m k)) (mapKeys m) :=
      List.Sublist.map Prod.fst (mapErase_sublist m k)
    refine ⟨hsub.mem h, ?_⟩
    intro he
    subst he
    have h2 : (mapLookup (mapErase m k') k').isSome := mapLookup_isSome_iff.mpr h
    rw [mapLookup_erase_self hn] at h2
    simp at h2
  · rintro ⟨hmem, hne⟩
    rw [← mapLookup_isSome_iff] at hmem ⊢
    rwa [mapLookup_erase_ne hne]

theorem mapKeys_erase_nodup {m : List (UUID × Session)} (k : UUID)
    (hn : (mapKeys m).Nodup) : (mapKeys (mapErase m k)).Nodup :=
  hn.sublist (List.Sublist.map Prod.fst (mapErase_sublist m k))

theorem mapErase_length_of_mem {m : List (UUID × Session)} {k : UUID}
    (h : k ∈ mapKeys m) : (mapErase m k).length + 1 = m.length := by
  induction m with
  | nil => simp [mapKeys] at h
  | cons p rest ih =>
    simp only [mapErase]
    split
    · simp
    · rename_i hp
      have hk : k ∈ mapKeys rest := by
        simp only [mapKeys, List.map_cons, List.mem_cons] at h
        rcases h with h | h
        · exact absurd h.symm hp
        · exact h
      simpa using ih hk

theorem mapLookup_of_mem_nodup {m : List (UUID × Session)}
    (hn : (mapKeys m).Nodup) {k : UUID} {s : Session} (h : (k, s) ∈ m) :
    mapLookup m k = some s := by
  induction m with
  | nil => simp at h
  | cons p rest ih =>
    simp only [mapKeys, List.map_cons, List.nodup_cons] at hn
    rcases List.mem_cons.mp h with h | h
    · rw [← h]
      simp [mapLookup]
    · simp only [mapLookup]
      split
      · rename_i hp
        exfalso
        apply hn.1
        rw [hp]
        exact mem_mapKeys.mpr ⟨s, h⟩
      · exact ih hn.2 h

theorem decSessions_nil (m : List (UUID × Session)) : decSessions m [] = m := rfl

theorem decSessions_cons (m : List (UUID × Session)) (u : UUID) (t : List UUID) :
    decSessions m (u :: t) =
      decSessions (mapInsert m u
        { (mapLookup m u).getD Session.zero with
          index := ((mapLookup m u).getD Session.zero).index - 1 }) t := rfl

theorem mapKeys_decSessions (l : List UUID) (m : List (UUID × Session))
    (h : ∀ u ∈ l, u ∈ mapKeys m) : mapKeys (decSessions m l) = mapKeys m := by
  induction l generalizing m with
  | nil => rfl
  | cons u t ih =>
    rw [decSessions_cons]
    have hu : u ∈ mapKeys m := h u (List.mem_cons_self u t)
    have hkeys := mapKeys_insert_of_mem (m := m) (k := u)
      { (mapLookup m u).getD Session.zero with
        index := ((mapLookup m u).getD Session.zero).index - 1 } hu
    rw [ih _ (fun x hx => by rw [hkeys]; exact h x (List.mem_cons_of_mem u hx)), hkeys]

theorem decSessions_lookup_not_mem (l : List UUID) (m : List (UUID × Session))
    {k : UUID} (h : k ∉ l) : mapLookup (decSessions m l) k = mapLookup m k := by
  induction l generalizing m with
  | nil => rfl
  | cons u t ih =>
    rw [decSessions_cons]
    have hne : k ≠ u := fun he => h (he ▸ List.mem_cons_self u t)
    rw [ih _ (fun ht => h (List.mem_cons_of_mem u ht)), mapLookup_insert_ne _ _ _ hne]

theorem decSessions_lookup_mem (l : List UUID) (m : List (UUID × Session))
    {k : UUID} {s : Session} (hnd : l.Nodup) (hsub : ∀ u ∈ l, u ∈ mapKeys m)
    (hk : k ∈ l) (hs : mapLookup m k = some s) :
    mapLookup (decSessions m l) k = some { s with index := s.index - 1 } := by
  induction l generalizing m with
  | nil => simp at hk
  | cons u t ih =>
    rw [decSessions_cons]
    rcases List.mem_cons.mp hk with rfl | hkt
    · have hknd : k ∉ t := (List.nodup_cons.mp hnd).1
      rw [decSessions_lookup_not_mem t _ hknd, hs, mapLookup_insert_self]
      simp
    · have hne : k ≠ u := by
        rintro rfl
        exact (List.nodup_cons.mp hnd).1 hkt
      have hu : u ∈ mapKeys m := hsub u (List.mem_cons_self u t)
      have hkeys := mapKeys_insert_of_mem (m := m) (k := u)
        { (mapLookup m u).getD Session.zero with
          index := ((mapLookup m u).getD Session.zero).index - 1 } hu
      apply ih
      · exact (List.nodup_cons.mp hnd).2
      · intro x hx
        rw [hkeys]
        exact hsub x (List.mem_cons_of_mem u hx)
      · exact hkt
      · rw [mapLookup_insert_ne _ _ _ hne]
        exact hs

theorem decSessions_length (l : List UUID) (m : List (UUID × Session))
    (h : ∀ u ∈ l, u ∈ mapKeys m) : (decSessions m l).length = m.length := by
  induction l generalizing m with
  | nil => rfl
  | cons u t ih =>
    rw [decSessions_cons]
    have hu : u ∈ mapKeys m := h u (List.mem_cons_self u t)
    have hkeys := mapKeys_insert_of_mem (m := m) (k := u)
      { (mapLookup m u).getD Session.zero with
        index := ((mapLookup m u).getD Session.zero).index - 1 } hu
    rw [ih _ (fun x hx => by rw [hkeys]; exact h x (List.mem_cons_of_mem u hx)),
        mapInsert_length_of_mem _ hu]

theorem splice_split (a : List UUID) (i : Nat) (key : UUID)
    (hget : a[i]? = some key) :
    a = a.take i ++ key :: a.drop (i + 1) := by
  obtain ⟨hi, hkey⟩ := List.getElem?_eq_some_iff.mp hget
  conv_lhs => rw [← List.take_append_drop i a]
  rw [List.drop_eq_getElem_cons hi, hkey]

theorem splice_facts (a : List UUID) (i : Nat) (key : UUID)
    (hget : a[i]? = some key) (hn : a.Nodup) :
    key ∉ (a.take i ++ a.drop (i + 1)) ∧ (a.take i ++ a.drop (i + 1)).Nodup := by
  have hsplit := splice_split a i key hget
  rw [hsplit, List.nodup_middle] at hn
  exact List.nodup_cons.mp hn

theorem splice_mem_iff (a : List UUID) (i : Nat) (key : UUID)
    (hget : a[i]? = some key) (hn : a.Nodup) (k : UUID) :
    k ∈ (a.take i ++ a.drop (i + 1)) ↔ k ∈ a ∧ k ≠ key := by
  have hsplit := splice_split a i key hget
  have hnot := (splice_facts a i key hget hn).1
  constructor
  · intro h
    refine ⟨?_, ?_⟩
    · rw [hsplit]
      rcases List.mem_append.mp h with h | h
      · exact List.mem_append.mpr (Or.inl h)
      · exact List.mem_append.mpr (Or.inr (List.mem_cons_of_mem key h))
    · rintro rfl
      exact hnot h
  · rintro ⟨ha, hne⟩
    rw [hsplit] at ha
    rcases List.mem_append.mp ha with h | h
    · exact List.mem_append.mpr (Or.inl h)
    · rcases List.mem_cons.mp h with h | h
      · exact absurd h hne
      · exact List.mem_append.mpr (Or.inr h)

theorem splice_length (a : List UUID) (i : Nat) (hi : i < a.length) :
    (a.take i ++ a.drop (i + 1)).length + 1 = a.length := by
  simp only [List.length_append, List.length_take, List.length_drop]
  omega

theorem splice_getElem_lt (a : List UUID) {i j : Nat} (hij : j < i)
    (hi : i < a.length) : (a.take i ++ a.drop (i + 1))[j]? = a[j]? := by
  have ht : (a.take i).length = i := by
    rw [List.length_take]
    omega
  rw [List.getElem?_append_left (by rw [ht]; exact hij), List.getElem?_take_of_lt hij]

theorem splice_getElem_ge (a : List UUID) {i j : Nat} (hij : i ≤ j)
    (hi : i < a.length) : (a.take i ++ a.drop (i + 1))[j]? = a[j + 1]? := by
  have ht : (a.take i).length = i := by
    rw [List.length_take]
    omega
  rw [List.getElem?_append_right (by rw [ht]; exact hij), ht, List.getElem?_drop]
  congr 1
  omega

theorem splice_drop (a : List UUID) (i : Nat) (hi : i < a.length) :
    (a.take i ++ a.drop (i + 1)).drop i = a.drop (i + 1) := by
  have ht : (a.take i).length = i := by
    rw [List.length_take]
    omega
  calc (a.take i ++ a.drop (i + 1)).drop i
      = (a.take i ++ a.drop (i + 1)).drop (a.take i).length := by rw [ht]
    _ = a.drop (i + 1) := List.drop_left _ _

theorem idx_in_drop {a : List UUID} {k : UUID} {j n : Nat} (hn2 : a.Nodup)
    (hj : a[j]? = some k) : k ∈ a.drop n ↔ n ≤ j := by
  constructor
  · intro hmem
    obtain ⟨t, ht⟩ := List.getElem?_of_mem hmem
    rw [List.getElem?_drop] at ht
    have hlt : j < a.length := (List.getElem?_eq_some_iff.mp hj).1
    have := List.getElem?_inj hlt hn2 (hj.trans ht.symm)
    omega
  · intro hle
    have h2 : (a.drop n)[j - n]? = some k := by
      rw [List.getElem?_drop]
      rwa [show n + (j - n) = j by omega]
    exact List.getElem?_mem h2

theorem Store.destroy_absent {st : Store} {key : UUID}
    (h : mapLookup st.sessions key = none) : Store.destroy st key = st := by
  unfold Store.destroy
  rw [h]

theorem Store.destroy_eq {st : Store} {key : UUID} {se : Session}
    (h : mapLookup st.sessions key = some se) :
    Store.destroy st key =
      { st with
        sessions := mapErase (decSessions st.sessions
          ((st.array.take se.index ++ st.array.drop (se.index + 1)).drop se.index)) key,
        array := st.array.take se.index ++ st.array.drop (se.index + 1),
        index := st.index - 1 } := by
  unfold Store.destroy
  rw [h]

theorem Store.destroy_lookup {st : Store} {key : UUID} {se : Session}
    (hinv : TableInv st) (h : mapLookup st.sessions key = some se) (k : UUID) :
    mapLookup (Store.destroy st key).sessions k =
      if k = key then none
      else if k ∈ st.array.drop (se.index + 1) then
        Option.map (fun s => { s with index := s.index - 1 }) (mapLookup st.sessions k)
      else mapLookup st.sessions k := by
  obtain ⟨hn1, hn2, h3, h4, h5, h6, h7⟩ := hinv
  have hgetkey : st.array[se.index]? = some key := h5 (key, se) (mapLookup_mem h)
  have hi : se.index < st.array.length := (List.getElem?_eq_some_iff.mp hgetkey).1
  have hldef := splice_drop st.array se.index hi
  have hl_sub : ∀ u ∈ st.array.drop (se.index + 1), u ∈ mapKeys st.sessions :=
    fun u hu => h4 u ((List.drop_sublist _ _).mem hu)
  have hl_nodup : (st.array.drop (se.index + 1)).Nodup :=
    hn2.sublist (List.drop_sublist _ _)
  rw [Store.destroy_eq h]
  dsimp only
  rw [hldef]
  by_cases hk : k = key
  · subst hk
    rw [if_pos rfl]
    have hkeysD := mapKeys_decSessions (st.array.drop (se.index + 1)) st.sessions hl_sub
    exact mapLookup_erase_self (by rw [hkeysD]; exact hn1)
  · rw [if_neg hk, mapLookup_erase_ne hk]
    by_cases hmem : k ∈ st.array.drop (se.index + 1)
    · rw [if_pos hmem]
      have hks : k ∈ mapKeys st.sessions := hl_sub k hmem
      obtain ⟨s, hs⟩ := Option.isSome_iff_exists.mp (mapLookup_isSome_iff.mpr hks)
      rw [decSessions_lookup_mem _ _ hl_nodup hl_sub hmem hs, hs]
      rfl
    · rw [if_neg hmem]
      exact decSessions_lookup_not_mem _ _ hmem

theorem TableInv.destroy {st : Store} (hinv : TableInv st) (key : UUID) :
    TableInv (Store.destroy st key) := by
  rcases hcase : mapLookup st.sessions key with _ | se
  · rw [Store.destroy_absent hcase]
    exact hinv
  · have hchar := Store.destroy_lookup hinv hcase
    obtain ⟨hn1, hn2, h3, h4, h5, h6, h7⟩ := hinv
    have hgetkey : st.array[se.index]? = some key := h5 (key, se) (mapLookup_mem hcase)
    have hi : se.index < st.array.length := (List.getElem?_eq_some_iff.mp hgetkey).1
    have hldef := splice_drop st.array se.index hi
    have hl_sub : ∀ u ∈ st.array.drop (se.index + 1), u ∈ mapKeys st.sessions :=
      fun u hu => h4 u ((List.drop_sublist _ _).mem hu)
    have hl_nodup : (st.array.drop (se.index + 1)).Nodup :=
      hn2.sublist (List.drop_sublist _ _)
    have hkeysD := mapKeys_decSessions (st.array.drop (se.index + 1)) st.sessions hl_sub
    have hkey_mem : key ∈ mapKeys st.sessions :=
      mapLookup_isSome_iff.mp (by rw [hcase]; rfl)
    have hsessions' : (Store.destroy st key).sessions =
        mapErase (decSessions st.sessions (st.array.drop (se.index + 1))) key := by
      rw [Store.destroy_eq hcase]
      dsimp only
      rw [hldef]
    have harray' : (Store.destroy st key).array =
        st.array.take se.index ++ st.array.drop (se.index + 1) := by
      rw [Store.destroy_eq hcase]
    have hindex' : (Store.destroy st key).index = st.index - 1 := by
      rw [Store.destroy_eq hcase]
    have hnD : (mapKeys (decSessions st.sessions (st.array.drop (se.index + 1)))).Nodup := by
      rw [hkeysD]
      exact hn1
    have hmem' : ∀ k, k ∈ mapKeys (Store.destroy st key).sessions ↔
        k ∈ mapKeys st.sessions ∧ k ≠ key := by
      intro k
      rw [hsessions', mem_mapKeys_erase hnD, hkeysD]
    refine ⟨?_, ?_, ?_, ?_, ?_, ?_, ?_⟩
    · rw [hsessions']
      exact mapKeys_erase_nodup key hnD
    · rw [harray']
      exact (splice_facts st.array se.index key hgetkey hn2).2
    · intro k hk
      rw [hmem'] at hk
      rw [harray', splice_mem_iff st.array se.index key hgetkey hn2]
      exact ⟨h3 k hk.1, hk.2⟩
    · intro k hk
      rw [harray', splice_mem_iff st.array se.index key hgetkey hn2] at hk
      rw [hmem']
      exact ⟨h4 k hk.1, hk.2⟩
    · rintro ⟨k, s'⟩ hp
      dsimp only
      have hlk : mapLookup (Store.destroy st key).sessions k = some s' := by
        apply mapLookup_of_mem_nodup _ hp
        rw [hsessions']
        exact mapKeys_erase_nodup key hnD
      rw [hchar k] at hlk
      by_cases hkkey : k = key
      · rw [if_pos hkkey] at hlk
        exact absurd hlk (by simp)
      · rw [if_neg hkkey] at hlk
        by_cases hdrop : k ∈ st.array.drop (se.index + 1)
        · rw [if_pos hdrop] at hlk
          obtain ⟨s, hs, hmap⟩ := Option.map_eq_some'.mp hlk
          have hold : st.array[s.index]? = some k := h5 (k, s) (mapLookup_mem hs)
          have hge : se.index + 1 ≤ s.index := (idx_in_drop hn2 hold).mp hdrop
          rw [harray']
          have : s'.index = s.index - 1 := by rw [← hmap]
          rw [this, splice_getElem_ge st.array (by omega) hi,
              show s.index - 1 + 1 = s.index by omega]
          exact hold
        · rw [if_neg hdrop] at hlk
          have hold : st.array[s'.index]? = some k := h5 (k, s') (mapLookup_mem hlk)
          have hlt : ¬ (se.index + 1 ≤ s'.index) := fun hle =>
            hdrop ((idx_in_drop hn2 hold).mpr hle)
          have hne_i : s'.index ≠ se.index := by
            intro he
            rw [he, hgetkey] at hold
            injection hold with hv
            exact hkkey hv.symm
          rw [harray', splice_getElem_lt st.array (by omega) hi]
          exact hold
    · rw [hindex', harray']
      have := splice_length st.array se.index hi
      omega
    · rw [hsessions', harray']
      have hkeyD_mem : key ∈ mapKeys (decSessions st.sessions (st.array.drop (se.index + 1))) := by
        rw [hkeysD]
        exact hkey_mem
      have he := mapErase_length_of_mem hkeyD_mem
      have hd := decSessions_length (st.array.drop (se.index + 1)) st.sessions hl_sub
      have hs := splice_length st.array se.index hi
      omega

theorem mem_mapInsert {m : List (UUID × Session)} {k : UUID} {v : Session}
    {p : UUID × Session} (h : p ∈ mapInsert m k v) : p ∈ m ∨ p = (k, v) := by
  induction m with
  | nil =>
    simp only [mapInsert, List.mem_singleton] at h
    exact Or.inr h
  | cons q rest ih =>
    simp only [mapInsert] at h
    split at h
    · rcases List.mem_cons.mp h with h | h
      · exact Or.inr h
      · exact Or.inl (List.mem_cons_of_mem _ h)
    · rcases List.mem_cons.mp h with h | h
      · exact Or.inl (h ▸ List.mem_cons_self q rest)
      · rcases ih h with h | h
        · exact Or.inl (List.mem_cons_of_mem _ h)
        · exact Or.inr h

theorem nodup_append_singleton {l : List UUID} {k : UUID} (hn : l.Nodup)
    (hk : k ∉ l) : (l ++ [k]).Nodup := by
  rw [show l ++ [k] = l ++ k :: ([] : List UUID) from rfl, List.nodup_middle]
  exact List.nodup_cons.mpr ⟨by simpa using hk, by simpa using hn⟩

theorem TableInv.insert_fresh {st : Store} (hinv : TableInv st) {key : UUID}
    {s : Session} (hnot : key ∉ mapKeys st.sessions) (hidx : s.index = st.index)
    (H : Heap) (R : DataRef) :
    TableInv { st with
               sessions := mapInsert st.sessions key s,
               array := st.array ++ [key],
               index := st.index + 1,
               heap := H,
               nextRef := R } := by
  obtain ⟨hn1, hn2, h3, h4, h5, h6, h7⟩ := hinv
  have hkey_not_arr : key ∉ st.array := fun hc => hnot (h4 key hc)
  refine ⟨?_, ?_, ?_, ?_, ?_, ?_, ?_⟩
  · dsimp only
    rw [mapKeys_insert_of_not_mem s hnot]
    exact nodup_append_singleton hn1 hnot
  · exact nodup_append_singleton hn2 hkey_not_arr
  · intro k hk
    dsimp only at hk ⊢
    rw [mapKeys_insert_of_not_mem s hnot] at hk
    rcases List.mem_append.mp hk with hk | hk
    · exact List.mem_append.mpr (Or.inl (h3 k hk))
    · exact List.mem_append.mpr (Or.inr hk)
  · intro k hk
    dsimp only at hk ⊢
    rw [mapKeys_insert_of_not_mem s hnot]
    rcases List.mem_append.mp hk with hk | hk
    · exact List.mem_append.mpr (Or.inl (h4 k hk))
    · exact List.mem_append.mpr (Or.inr hk)
  · rintro ⟨k, s'⟩ hp
    dsimp only at hp ⊢
    rcases mem_mapInsert hp with hp | hp
    · have hold := h5 (k, s') hp
      dsimp only at hold
      have hlt : s'.index < st.array.length :=
        (List.getElem?_eq_some_iff.mp hold).1
      rw [List.getElem?_append_left hlt]
      exact hold
    · injection hp with hk hs
      rw [hk, hs, hidx, h6]
      exact List.getElem?_concat_length st.array key
  · dsimp only
    rw [List.length_append, h6]
    rfl
  · dsimp only
    rw [mapInsert_length_of_not_mem s hnot, List.length_append, h7]
    rfl

theorem TableInv.create {st : Store} (hinv : TableInv st) (key : UUID)
    (maxage now : Int) : TableInv (command.create st key maxage now).1 := by
  unfold command.create
  by_cases hmem : (mapLookup st.sessions key).isSome
  · rw [if_pos hmem]
    exact hinv
  · rw [if_neg hmem]
    dsimp only
    have hnot : key ∉ mapKeys st.sessions := fun hc =>
      hmem (mapLookup_isSome_iff.mpr hc)
    exact hinv.insert_fresh hnot (by split <;> rfl) _ _

theorem TableInv.touch {st : Store} (hinv : TableInv st) (key : UUID)
    (now : Int) : TableInv (command.touch st key now).1 := by
  unfold command.touch
  rcases hcase : mapLookup st.sessions key with _ | s
  · exact hinv
  · dsimp only
    obtain ⟨hn1, hn2, h3, h4, h5, h6, h7⟩ := hinv
    have hkey_mem : key ∈ mapKeys st.sessions :=
      mapLookup_isSome_iff.mp (by rw [hcase]; rfl)
    refine ⟨?_, hn2, ?_, ?_, ?_, h6, ?_⟩
    · dsimp only
      rw [mapKeys_insert_of_mem _ hkey_mem]
      exact hn1
    · intro k hk
      dsimp only at hk ⊢
      rw [mapKeys_insert_of_mem _ hkey_mem] at hk
      exact h3 k hk
    · intro k hk
      dsimp only at hk ⊢
      rw [mapKeys_insert_of_mem _ hkey_mem]
      exact h4 k hk
    · rintro ⟨k, s'⟩ hp
      dsimp only at hp ⊢
      rcases mem_mapInsert hp with hp | hp
      · exact h5 (k, s') hp
      · injection hp with hk hs
        rw [hk, hs]
        exact h5 (key, s) (mapLookup_mem hcase)
    · dsimp only
      rw [mapInsert_length_of_mem _ hkey_mem]
      exact h7

theorem foldl_destroy_inv (l : List UUID) (st : Store) (now : Int)
    (hinv : TableInv st) :
    TableInv (l.foldl (fun acc key =>
      let s := (mapLookup acc.sessions key).getD Session.zero
      if now - s.modified > s.maxage then Store.destroy acc key else acc) st) := by
  induction l generalizing st with
  | nil => exact hinv
  | cons u t ih =>
    rw [List.foldl_cons]
    apply ih
    dsimp only
    split
    · exact hinv.destroy u
    · exact hinv

theorem TableInv.timecheck {st : Store} (hinv : TableInv st) (now : Int) :
    TableInv (command.timeout st now) :=
  foldl_destroy_inv (mapKeys st.sessions) st now hinv

theorem TableInv.exec {st : Store} (hinv : TableInv st) (c : ActorCmd) :
    TableInv (execCmd st c) := by
  cases c with
  | create k m n => exact hinv.create k m n
  | touch k n => exact hinv.touch k n
  | destroy k =>
    show TableInv (command.destroy st k)
    unfold command.destroy
    split
    · exact hinv.destroy k
    · exact hinv
  | sweep n => exact hinv.timecheck n

theorem TableInv.execList {st : Store} (hinv : TableInv st)
    (cmds : List ActorCmd) : TableInv (execCmds st cmds) := by
  induction cmds generalizing st with
  | nil => exact hinv
  | cons c t ih =>
    rw [show execCmds st (c :: t) = execCmds (execCmd st c) t from rfl]
    exact ih (hinv.exec c)

theorem TableInv.start : TableInv Init := by
  decide

theorem TableInv.claim {st : Store} (hinv : TableInv st) : ClaimInv st := by
  obtain ⟨hn1, hn2, h3, h4, h5, h6, h7⟩ := hinv
  refine ⟨?_, ?_, ?_⟩
  · intro k s hks
    have hmem : k ∈ st.array := h3 k (mapLookup_isSome_iff.mp (by rw [hks]; rfl))
    exact ⟨List.count_eq_one_of_mem hn2 hmem, h5 (k, s) (mapLookup_mem hks)⟩
  · omega
  · omega

theorem destroy_mem_iff {st : Store} {key : UUID} {se : Session}
    (hinv : TableInv st) (h : mapLookup st.sessions key = some se) (k : UUID) :
    k ∈ mapKeys (Store.destroy st key).sessions ↔
      k ∈ mapKeys st.sessions ∧ k ≠ key := by
  rw [← mapLookup_isSome_iff, ← mapLookup_isSome_iff (m := st.sessions),
      Store.destroy_lookup hinv h k]
  by_cases hk : k = key
  · subst hk
    simp [h]
  · rw [if_neg hk]
    by_cases hd : k ∈ st.array.drop (se.index + 1)
    · rw [if_pos hd]
      cases hlook : mapLookup st.sessions k <;> simp [hk]
    · rw [if_neg hd]
      simp [hk]

theorem destroy_lookup_fields {st : Store} {key : UUID} {se : Session}
    (hinv : TableInv st) (h : mapLookup st.sessions key = some se) {k : UUID}
    {s' : Session} (hk : k ≠ key)
    (hlk : mapLookup (Store.destroy st key).sessions k = some s') :
    ∃ s, mapLookup st.sessions k = some s ∧ s'.id = s.id ∧ s'.data = s.data ∧
      s'.created = s.created ∧ s'.modified = s.modified ∧ s'.maxage = s.maxage ∧
      s'.sto = s.sto ∧ s'.active = s.active := by
  rw [Store.destroy_lookup hinv h k, if_neg hk] at hlk
  by_cases hd : k ∈ st.array.drop (se.index + 1)
  · rw [if_pos hd] at hlk
    obtain ⟨s, hs, hmap⟩ := Option.map_eq_some'.mp hlk
    subst hmap
    exact ⟨s, hs, rfl, rfl, rfl, rfl, rfl, rfl, rfl⟩
  · rw [if_neg hd] at hlk
    exact ⟨s', hlk, rfl, rfl, rfl, rfl, rfl, rfl, rfl⟩

theorem sweep_fold (now : Int) (l : List UUID) (st : Store) (hinv : TableInv st)
    (hnd : l.Nodup) (hsub : ∀ u ∈ l, u ∈ mapKeys st.sessions) (k : UUID) :
    (k ∈ mapKeys (l.foldl (fun acc key =>
        let s := (mapLookup acc.sessions key).getD Session.zero
        if now - s.modified > s.maxage then Store.destroy acc key else acc)
        st).sessions ↔
      (k ∈ mapKeys st.sessions ∧ (k ∉ l ∨
        ∃ s, mapLookup st.sessions k = some s ∧ now - s.modified ≤ s.maxage))) ∧
    (∀ s', mapLookup (l.foldl (fun acc key =>
        let s := (mapLookup acc.sessions key).getD Session.zero
        if now - s.modified > s.maxage then Store.destroy acc key else acc)
        st).sessions k = some s' →
      ∃ s, mapLookup st.sessions k = some s ∧ s'.id = s.id ∧ s'.data = s.data ∧
        s'.created = s.created ∧ s'.modified = s.modified ∧ s'.maxage = s.maxage ∧
        s'.sto = s.sto ∧ s'.active = s.active) := by
  induction l generalizing st with
  | nil =>
    constructor
    · simp
    · intro s' hs'
      exact ⟨s', hs', rfl, rfl, rfl, rfl, rfl, rfl, rfl⟩
  | cons u t ih =>
    obtain ⟨su, hsu⟩ : ∃ su, mapLookup st.sessions u = some su :=
      Option.isSome_iff_exists.mp
        (mapLookup_isSome_iff.mpr (hsub u (List.mem_cons_self u t)))
    obtain ⟨hu_not, hnd_t⟩ := List.nodup_cons.mp hnd
    rw [List.foldl_cons]
    simp only [hsu, Option.getD_some]
    by_cases hexp : now - su.modified > su.maxage
    · rw [if_pos hexp]
      have hinv' : TableInv (Store.destroy st u) := hinv.destroy u
      have hsub' : ∀ x ∈ t, x ∈ mapKeys (Store.destroy st u).sessions := by
        intro x hx
        rw [destroy_mem_iff hinv hsu x]
        refine ⟨hsub x (List.mem_cons_of_mem u hx), ?_⟩
        rintro rfl
        exact hu_not hx
      obtain ⟨ihm, ihf⟩ := ih (Store.destroy st u) hinv' hnd_t hsub'
      constructor
      · rw [ihm, destroy_mem_iff hinv hsu k]
        by_cases hk : k = u
        · subst hk
          simp only [ne_eq, not_true_eq_false, and_false, false_and, false_iff,
            not_and, not_or, not_not]
          intro hkmem
          constructor
          · exact List.mem_cons_self k t
          · rintro ⟨s, hs, hle⟩
            rw [hsu] at hs
            injection hs with hs
            subst hs
            omega
        · have hmem_cons : (k ∉ u :: t) ↔ k ∉ t := by
            simp [List.mem_cons, hk]
          rw [hmem_cons]
          constructor
          · rintro ⟨⟨hkm, _⟩, hrest⟩
            refine ⟨hkm, ?_⟩
            rcases hrest with hrest | ⟨s2, hs2, hle2⟩
            · exact Or.inl hrest
            · obtain ⟨s, hs, _, _, _, hmod, hmax, _, _⟩ :=
                destroy_lookup_fields hinv hsu hk hs2
              exact Or.inr ⟨s, hs, by rw [← hmod, ← hmax]; exact hle2⟩
          · rintro ⟨hkm, hrest⟩
            refine ⟨⟨hkm, hk⟩, ?_⟩
            rcases hrest with hrest | ⟨s, hs, hle⟩
            · exact Or.inl hrest
            · have hkm' : k ∈ mapKeys (Store.destroy st u).sessions :=
                (destroy_mem_iff hinv hsu k).mpr ⟨hkm, hk⟩
              obtain ⟨s2, hs2⟩ := Option.isSome_iff_exists.mp
                (mapLookup_isSome_iff.mpr hkm')
              obtain ⟨s3, hs3, _, _, _, hmod, hmax, _, _⟩ :=
                destroy_lookup_fields hinv hsu hk hs2
              rw [hs] at hs3
              injection hs3 with hs3
              subst hs3
              exact Or.inr ⟨s2, hs2, by rw [hmod, hmax]; exact hle⟩
      · intro s' hs'
        obtain ⟨s2, hs2, e1, e2, e3, e4, e5, e6, e7⟩ := ihf s' hs'
        have hk : k ≠ u := by
          rintro rfl
          have : k ∈ mapKeys (Store.destroy st k).sessions :=
            mapLookup_isSome_iff.mp (by rw [hs2]; rfl)
          rw [destroy_mem_iff hinv hsu k] at this
          exact this.2 rfl
        obtain ⟨s, hs, f1, f2, f3, f4, f5, f6, f7⟩ :=
          destroy_lookup_fields hinv hsu hk hs2
        exact ⟨s, hs, e1.trans f1, e2.trans f2, e3.trans f3, e4.trans f4,
          e5.trans f5, e6.trans f6, e7.trans f7⟩
    · rw [if_neg hexp]
      obtain ⟨ihm, ihf⟩ := ih st hinv hnd_t
        (fun x hx => hsub x (List.mem_cons_of_mem u hx))
      constructor
      · rw [ihm]
        by_cases hk : k = u
        · subst hk
          constructor
          · rintro ⟨hkm, _⟩
            exact ⟨hkm, Or.inr ⟨su, hsu, by omega⟩⟩
          · rintro ⟨hkm, _⟩
            exact ⟨hkm, Or.inl hu_not⟩
        · have hmem_cons : (k ∉ u :: t) ↔ k ∉ t := by
            simp [List.mem_cons, hk]
          rw [hmem_cons]
      · exact ihf

theorem create_char (maxage now : Int) {st : Store} {key : UUID}
    (habs : mapLookup st.sessions key = none) :
    ∃ s, command.create st key maxage now =
      ({ st with
         sessions := mapInsert st.sessions key s,
         array := st.array ++ [key],
         index := st.index + 1,
         heap := st.heap ++ [(st.nextRef, [])],
         nextRef := st.nextRef + 1 }, s) ∧
      s.active = true ∧ s.data = some st.nextRef ∧ s.id = key ∧
      s.created = now ∧ s.modified = now ∧ s.index = st.index ∧ s.sto = true ∧
      (0 < maxage → s.maxage = maxage) ∧
      (maxage ≤ 0 → s.maxage = Int.tdiv st.period divisor) := by
  unfold command.create
  rw [habs]
  rw [if_neg (by simp)]
  dsimp only
  by_cases hm : maxage ≤ 0
  · rw [if_pos hm]
    exact ⟨_, rfl, rfl, rfl, rfl, rfl, rfl, rfl, rfl,
      fun h => absurd h (by omega), fun _ => rfl⟩
  · rw [if_neg hm]
    exact ⟨_, rfl, rfl, rfl, rfl, rfl, rfl, rfl, rfl,
      fun _ => rfl, fun h => absurd h hm⟩

theorem heapFind_update (h : Heap) (r : DataRef) (f : ValueStore → ValueStore) :
    heapFind (heapUpdate h r f) r = (heapFind h r).map f := by
  induction h with
  | nil => rfl
  | cons p rest ih =>
    simp only [heapUpdate]
    split
    · rename_i hp
      simp [heapFind, hp]
    · rename_i hp
      simp only [heapFind, if_neg hp]
      exact ih

/-- Sample valid uuid. -/
def u1 : UUID := ⟨1, false⟩

/-- Second sample valid uuid. -/
def u2 : UUID := ⟨2, false⟩

/-- Sample uuid failing the variant validity check. -/
def badU : UUID := ⟨3, true⟩

/-- Sample value-store key. -/
def kx : Key := "x"

/-- The data contents the authoritative table entry for `k` denotes,
reading the entry's value-store reference through the heap. -/
def entryContents (st : Store) (k : UUID) : ValueStore :=
  match mapLookup st.sessions k with
  | some s => heapContents st.heap s.data
  | none => []

/-- C1: starting from the empty table, after any sequence of create, touch,
destroy and sweep commands executed by the actor, every key of `sessions`
appears exactly once in `array` at the position equal to that session's
stored `index` field, and the length of `array`, the size of `sessions` and
the running `index` counter are all equal. -/
theorem c1_table_invariant (cmds : List ActorCmd) :
    ClaimInv (execCmds Init cmds) :=
  (TableInv.start.execList cmds).claim

/-- C2 counterexample: create a session at time 0 (its stored last-modified
timestamp is 0), then run `Store.Restore` at time 7: the stored entry's
last-modified timestamp becomes 7, so Restore does not leave it unchanged. -/
theorem c2_counterexample :
    (mapLookup (command.create Init u1 (5 * second) 0).1.sessions u1).map
        Session.modified = some 0 ∧
    (mapLookup (Store.Restore (command.create Init u1 (5 * second) 0).1
        u1 7).1.sessions u1).map Session.modified = some 7 ∧
    (some (7 : Int) : Option Int) ≠ some 0 := by
  decide

/-- C2 (amended): `Store.Restore` submits a `touch` command, so on a valid,
present and active session id it sets the stored entry's last-modified
timestamp to the current time; the `retrieve` (activate) command, which
Restore does not use, leaves the table entirely unchanged, and the touch
path is the one that refreshes the stored timestamp. -/
theorem c2_restore_touches (st : Store) (sid : UUID) (now m : Int) (s : Session)
    (hv : sid.variantInvalid = false) (hs : mapLookup st.sessions sid = some s)
    (ha : s.active = true) :
    (mapLookup (Store.Restore st sid now).1.sessions sid).map Session.modified
        = some now ∧
    (command.retrieve st sid m).1 = st := by
  constructor
  · simp only [Store.Restore, hv, Bool.false_eq_true, if_false, command.touch, hs]
    rw [show ({ s with modified := now } : Session).active = true from ha]
    simp [mapLookup_insert_self]
  · unfold command.retrieve
    rw [hs]

theorem c2_restore_touches_witness :
    (mapLookup (Store.Restore (command.create Init u1 (5 * second) 0).1
        u1 7).1.sessions u1).map Session.modified = some 7 ∧
    (command.retrieve (command.create Init u1 (5 * second) 0).1 u1 9).1
        = (command.create Init u1 (5 * second) 0).1 :=
  c2_restore_touches (command.create Init u1 (5 * second) 0).1 u1 7 9
    { id := u1, data := some 0, created := 0, modified := 0, index := 0,
      sto := true, maxage := 5 * second, active := true }
    (by decide) (by decide) (by decide)

/-- C3: Create on a valid id already present in the table returns the zero
(inactive) session value together with an error, and leaves the entire
store — in particular the existing session's value store — unchanged. -/
theorem c3_create_collision (st : Store) (sid : UUID) (maxage now : Int)
    (hv : sid.variantInvalid = false)
    (hp : (mapLookup st.sessions sid).isSome) :
    Store.Create st sid maxage now = (st, Session.zero, some GoError.noSession) := by
  simp only [Store.Create, hv, Bool.false_eq_true, if_false, command.create,
    if_pos hp]
  rfl

theorem c3_create_collision_witness :
    Store.Create (command.create Init u1 (5 * second) 0).1 u1 3 9
      = ((command.create Init u1 (5 * second) 0).1, Session.zero,
         some GoError.noSession) :=
  c3_create_collision (command.create Init u1 (5 * second) 0).1 u1 3 9
    (by decide) (by decide)

theorem command.destroy_noop {st : Store} {k : UUID}
    (h : mapLookup st.sessions k = none) : command.destroy st k = st := by
  unfold command.destroy
  rw [h]
  rfl

theorem command.destroy_present {st : Store} {k : UUID} {se : Session}
    (h : mapLookup st.sessions k = some se) :
    command.destroy st k = Store.destroy st k := by
  unfold command.destroy
  rw [h]
  rfl

/-- C5: Destroy with a valid id absent from the table returns no error and
leaves the store unchanged; Destroy never returns an error on a valid id;
and destroying the same valid id twice in a row leaves the store exactly as
it is after the first destroy. -/
theorem c5_destroy_idempotent (st : Store) (sid : UUID)
    (hv : sid.variantInvalid = false) (hinv : TableInv st) :
    (mapLookup st.sessions sid = none → Store.Destroy st sid = (st, none)) ∧
    (Store.Destroy st sid).2 = none ∧
    (Store.Destroy (Store.Destroy st sid).1 sid).1 = (Store.Destroy st sid).1 := by
  simp only [Store.Destroy, hv, Bool.false_eq_true, if_false]
  refine ⟨?_, trivial, ?_⟩
  · intro habs
    rw [command.destroy_noop habs]
  · rcases hcase : mapLookup st.sessions sid with _ | se
    · rw [command.destroy_noop hcase, command.destroy_noop hcase]
    · rw [command.destroy_present hcase]
      have hgone : mapLookup (Store.destroy st sid).sessions sid = none := by
        rw [Store.destroy_lookup hinv hcase sid, if_pos rfl]
      rw [command.destroy_noop hgone]

theorem c5_destroy_idempotent_witness :
    (mapLookup Init.sessions u2 = none → Store.Destroy Init u2 = (Init, none)) ∧
    (Store.Destroy Init u2).2 = none ∧
    (Store.Destroy (Store.Destroy Init u2).1 u2).1 = (Store.Destroy Init u2).1 :=
  c5_destroy_idempotent Init u2 (by decide) (by decide)

/-- C4 counterexample: with two sessions created at time 0 (TTLs 1s and
100s), a sweep at time 5s removes the first and keeps the second, whose
idle time (5s) does not exceed its TTL (100s); yet the surviving entry is
not unchanged — its stored index is renumbered from 1 to 0. -/
theorem c4_counterexample :
    5 * second - 0 ≤ 100 * second ∧
    (mapLookup (command.timeout (command.create (command.create Init u1
        second 0).1 u2 (100 * second) 0).1 (5 * second)).sessions u2).isSome ∧
    mapLookup (command.timeout (command.create (command.create Init u1
        second 0).1 u2 (100 * second) 0).1 (5 * second)).sessions u2 ≠
      mapLookup (command.create (command.create Init u1 second 0).1 u2
        (100 * second) 0).1.sessions u2 := by
  decide

/-- C4 (amended): after a sweep command at time `now`, an id is in the
table iff it was there with idle time `now - modified` not exceeding its
own TTL; every surviving session keeps its id, data reference, creation
and modification times, TTL, store binding and active flag — only its
`index` field may be renumbered to keep the array invariant. -/
theorem c4_sweep (st : Store) (now : Int) (k : UUID) (hinv : TableInv st) :
    ((mapLookup (command.timeout st now).sessions k).isSome ↔
      ∃ s, mapLookup st.sessions k = some s ∧ now - s.modified ≤ s.maxage) ∧
    (∀ s', mapLookup (command.timeout st now).sessions k = some s' →
      ∃ s, mapLookup st.sessions k = some s ∧ s'.id = s.id ∧ s'.data = s.data ∧
        s'.created = s.created ∧ s'.modified = s.modified ∧
        s'.maxage = s.maxage ∧ s'.sto = s.sto ∧ s'.active = s.active) := by
  unfold command.timeout
  obtain ⟨hm, hf⟩ := sweep_fold now (mapKeys st.sessions) st hinv hinv.1
    (fun u hu => hu) k
  constructor
  · rw [mapLookup_isSome_iff, hm]
    constructor
    · rintro ⟨hkm, hrest⟩
      rcases hrest with hnot | hE
      · exact absurd hkm hnot
      · exact hE
    · rintro ⟨s, hs, hle⟩
      exact ⟨mapLookup_isSome_iff.mp (by rw [hs]; rfl), Or.inr ⟨s, hs, hle⟩⟩
  · exact hf

theorem c4_sweep_witness :
    ((mapLookup (command.timeout (command.create Init u1 second 0).1
        0).sessions u1).isSome ↔
      ∃ s, mapLookup (command.create Init u1 second 0).1.sessions u1 = some s ∧
        0 - s.modified ≤ s.maxage) ∧
    (∀ s', mapLookup (command.timeout (command.create Init u1 second 0).1
        0).sessions u1 = some s' →
      ∃ s, mapLookup (command.create Init u1 second 0).1.sessions u1 = some s ∧
        s'.id = s.id ∧ s'.data = s.data ∧ s'.created = s.created ∧
        s'.modified = s.modified ∧ s'.maxage = s.maxage ∧ s'.sto = s.sto ∧
        s'.active = s.active) :=
  c4_sweep (command.create Init u1 second 0).1 0 u1 (by decide)

/-- C6 counterexample: Get and Del on the zero (unbound) Session value
return the malformed-uuid error ErrPoorForm, which is not one of the
Expired/ResourceGone-class errors (ErrTimedOut, ErrNoSession). -/
theorem c6_counterexample :
    (Session.Get Init Session.zero 0 kx).2.2 = some GoError.poorForm ∧
    (Session.Del Init Session.zero 0 kx).2 = some GoError.poorForm ∧
    GoError.poorForm ≠ GoError.timedOut ∧
    GoError.poorForm ≠ GoError.noSession := by
  decide

/-- C6 (amended): on a Session copy still marked active and bound whose id
has been destroyed or swept from the table, Set fails with ErrTimedOut and
Get and Del fail with ErrNoSession; on the zero/unbound Session value, Set
fails with ErrTimedOut while Get and Del fail with ErrPoorForm.  In every
case an error is returned — never silent success — and the store, hence
every value store, is left unchanged. -/
theorem c6_stale_session (st : Store) (s : Session) (now : Int) (key : Key)
    (v : Value) (hsto : s.sto = true) (hact : s.active = true)
    (habs : mapLookup st.sessions s.id = none) :
    Session.Set st s now key v = (st, some GoError.timedOut) ∧
    Session.Get st s now key = (st, none, some GoError.noSession) ∧
    Session.Del st s now key = (st, some GoError.noSession) ∧
    Session.Set st Session.zero now key v = (st, some GoError.timedOut) ∧
    Session.Get st Session.zero now key = (st, none, some GoError.poorForm) ∧
    Session.Del st Session.zero now key = (st, some GoError.poorForm) := by
  refine ⟨?_, ?_, ?_, ?_, ?_, ?_⟩ <;>
    simp [Session.Set, Session.Get, Session.Del, Store.touch, command.touch,
      hsto, hact, habs, Session.zero]

theorem c6_stale_session_witness :
    Session.Set (command.destroy (command.create Init u1 (5 * second) 0).1 u1)
        (command.create Init u1 (5 * second) 0).2 9 kx 7
      = (command.destroy (command.create Init u1 (5 * second) 0).1 u1,
         some GoError.timedOut) ∧
    Session.Get (command.destroy (command.create Init u1 (5 * second) 0).1 u1)
        (command.create Init u1 (5 * second) 0).2 9 kx
      = (command.destroy (command.create Init u1 (5 * second) 0).1 u1,
         none, some GoError.noSession) ∧
    Session.Del (command.destroy (command.create Init u1 (5 * second) 0).1 u1)
        (command.create Init u1 (5 * second) 0).2 9 kx
      = (command.destroy (command.create Init u1 (5 * second) 0).1 u1,
         some GoError.noSession) ∧
    Session.Set (command.destroy (command.create Init u1 (5 * second) 0).1 u1)
        Session.zero 9 kx 7
      = (command.destroy (command.create Init u1 (5 * second) 0).1 u1,
         some GoError.timedOut) ∧
    Session.Get (command.destroy (command.create Init u1 (5 * second) 0).1 u1)
        Session.zero 9 kx
      = (command.destroy (command.create Init u1 (5 * second) 0).1 u1,
         none, some GoError.poorForm) ∧
    Session.Del (command.destroy (command.create Init u1 (5 * second) 0).1 u1)
        Session.zero 9 kx
      = (command.destroy (command.create Init u1 (5 * second) 0).1 u1,
         some GoError.poorForm) :=
  c6_stale_session (command.destroy (command.create Init u1 (5 * second) 0).1 u1)
    (command.create Init u1 (5 * second) 0).2 9 kx 7
    (by decide) (by decide) (by decide)

/-- C7: for a valid id absent from the table, Create succeeds and an
immediately following Restore on the same id succeeds and returns a Session
holding the same value-store reference, hence the same data store contents,
as the Session returned by Create. -/
theorem c7_create_restore (st : Store) (sid : UUID) (maxage now1 now2 : Int)
    (hv : sid.variantInvalid = false) (habs : mapLookup st.sessions sid = none) :
    (Store.Create st sid maxage now1).2.2 = none ∧
    (Store.Restore (Store.Create st sid maxage now1).1 sid now2).2.2 = none ∧
    (Store.Restore (Store.Create st sid maxage now1).1 sid now2).2.1.data
        = (Store.Create st sid maxage now1).2.1.data ∧
    heapContents
        (Store.Restore (Store.Create st sid maxage now1).1 sid now2).1.heap
        (Store.Restore (Store.Create st sid maxage now1).1 sid now2).2.1.data
      = heapContents (Store.Create st sid maxage now1).1.heap
          (Store.Create st sid maxage now1).2.1.data := by
  obtain ⟨s, heq, hact, hdata, _, _, _, _, _, _⟩ :=
    create_char (wrap64 (maxage * second)) now1 habs
  have hA2 : (command.create st sid (wrap64 (maxage * second)) now1).2 = s := by rw [heq]
  have hAsess : (command.create st sid (wrap64 (maxage * second)) now1).1.sessions
      = mapInsert st.sessions sid s := by rw [heq]
  have hC : Store.Create st sid maxage now1 =
      ((command.create st sid (wrap64 (maxage * second)) now1).1, s, none) := by
    simp only [Store.Create, hv, Bool.false_eq_true, if_false, hA2, hact,
      Bool.not_true]
  have hlookup : mapLookup
      (command.create st sid (wrap64 (maxage * second)) now1).1.sessions sid = some s := by
    rw [hAsess]
    exact mapLookup_insert_self _ _ _
  have hR : Store.Restore (command.create st sid (wrap64 (maxage * second)) now1).1
        sid now2 =
      ({ (command.create st sid (wrap64 (maxage * second)) now1).1 with
         sessions := mapInsert
           (command.create st sid (wrap64 (maxage * second)) now1).1.sessions sid
           { s with modified := now2 } },
       { s with modified := now2 }, none) := by
    simp only [Store.Restore, hv, Bool.false_eq_true, if_false, command.touch,
      hlookup]
    rw [show ({ s with modified := now2 } : Session).active = true from hact]
    simp
  rw [hC, hR]
  exact ⟨rfl, rfl, rfl, rfl⟩

theorem c7_create_restore_witness :
    (Store.Create Init u1 5 0).2.2 = none ∧
    (Store.Restore (Store.Create Init u1 5 0).1 u1 7).2.2 = none ∧
    (Store.Restore (Store.Create Init u1 5 0).1 u1 7).2.1.data
        = (Store.Create Init u1 5 0).2.1.data ∧
    heapContents (Store.Restore (Store.Create Init u1 5 0).1 u1 7).1.heap
        (Store.Restore (Store.Create Init u1 5 0).1 u1 7).2.1.data
      = heapContents (Store.Create Init u1 5 0).1.heap
          (Store.Create Init u1 5 0).2.1.data :=
  c7_create_restore Init u1 5 0 7 (by decide) (by decide)

/-- C8 counterexample: Go's duration conversion wraps at int64.  The
positive request 9223372037 seconds wraps to a negative duration, so the
successfully created session gets the default TTL (period / 2) instead of
the requested one; the non-positive request -9223372037 wraps to a positive
duration, so the session keeps that wrapped value instead of the default.
Both conjuncts of the claim fail. -/
theorem c8_counterexample :
    (0 < (9223372037 : Int)) ∧
    (Store.Create Init u1 9223372037 0).2.2 = none ∧
    (Store.Create Init u1 9223372037 0).2.1.maxage
        = Int.tdiv Init.period divisor ∧
    (Store.Create Init u1 9223372037 0).2.1.maxage ≠ 9223372037 * second ∧
    ((-9223372037 : Int) ≤ 0) ∧
    (Store.Create Init u2 (-9223372037) 0).2.2 = none ∧
    (Store.Create Init u2 (-9223372037) 0).2.1.maxage
        ≠ Int.tdiv Init.period divisor := by
  decide

theorem wrap64_eq_self {x : Int} (h1 : -9223372036854775808 ≤ x)
    (h2 : x < 9223372036854775808) : wrap64 x = x := by
  unfold wrap64
  omega

/-- C8 (amended): whenever Create succeeds, the requested TTL in seconds is
converted to a nanosecond duration with int64 wrapping, as Go's
`time.Duration` multiplication computes it; the session's TTL equals that
wrapped duration when it is positive, and otherwise equals the store's
currently configured sweep period divided by two (truncated integer
division).  In particular, for every positive request whose nanosecond
value fits in int64 — every request that does not overflow — the TTL equals
the requested duration, as the original claim states. -/
theorem c8_default_ttl (st : Store) (sid : UUID) (maxage now : Int)
    (hsucc : (Store.Create st sid maxage now).2.2 = none) :
    (0 < wrap64 (maxage * second) →
      (Store.Create st sid maxage now).2.1.maxage = wrap64 (maxage * second)) ∧
    (wrap64 (maxage * second) ≤ 0 →
      (Store.Create st sid maxage now).2.1.maxage
        = Int.tdiv st.period divisor) ∧
    (0 < maxage → maxage * second < 9223372036854775808 →
      (Store.Create st sid maxage now).2.1.maxage = maxage * second) := by
  by_cases hv : sid.variantInvalid = true
  · exfalso
    simp [Store.Create, hv] at hsucc
  · rw [Bool.not_eq_true] at hv
    rcases hcase : mapLookup st.sessions sid with _ | se
    · obtain ⟨s, heq, hact, _, _, _, _, _, _, hpos, hnonpos⟩ :=
        create_char (wrap64 (maxage * second)) now hcase
      have hA2 : (command.create st sid (wrap64 (maxage * second)) now).2 = s := by
        rw [heq]
      have hC : (Store.Create st sid maxage now).2.1 = s := by
        simp only [Store.Create, hv, Bool.false_eq_true, if_false, hA2, hact,
          Bool.not_true]
      rw [hC]
      refine ⟨hpos, hnonpos, ?_⟩
      intro h1 h2
      have hw : wrap64 (maxage * second) = maxage * second := by
        apply wrap64_eq_self
        · simp only [second]
          omega
        · exact h2
      rw [hw] at hpos
      apply hpos
      simp only [second]
      omega
    · exfalso
      have hsome : (mapLookup st.sessions sid).isSome := by rw [hcase]; rfl
      simp [Store.Create, hv, command.create, if_pos hsome, Session.zero]
        at hsucc

theorem c8_default_ttl_witness :
    (0 < wrap64 (5 * second) →
      (Store.Create Init u1 5 0).2.1.maxage = wrap64 (5 * second)) ∧
    (wrap64 (5 * second) ≤ 0 →
      (Store.Create Init u1 5 0).2.1.maxage = Int.tdiv Init.period divisor) ∧
    (0 < (5 : Int) → 5 * second < 9223372036854775808 →
      (Store.Create Init u1 5 0).2.1.maxage = 5 * second) :=
  c8_default_ttl Init u1 5 0 (by decide)

/-- C9 counterexample: Destroy on a uuid failing the validity check returns
the no-session error ErrNoSession, not the malformed-id error ErrPoorForm. -/
theorem c9_counterexample :
    (Store.Destroy Init badU).2 = some GoError.noSession ∧
    (some GoError.noSession : Option GoError) ≠ some GoError.poorForm := by
  decide

/-- C9 (amended): on a uuid failing the validity check, Create and Restore
return the malformed-id error ErrPoorForm while Destroy returns the
no-session error ErrNoSession, each leaving the table unchanged; and on any
uuid passing the check Destroy returns no error, so an invalid uuid is the
only case in which Destroy errors. -/
theorem c9_malformed (st : Store) (sid sid2 : UUID) (maxage now now2 : Int)
    (hv : sid.variantInvalid = true) (hv2 : sid2.variantInvalid = false) :
    Store.Create st sid maxage now = (st, Session.zero, some GoError.poorForm) ∧
    Store.Restore st sid now2 = (st, Session.zero, some GoError.poorForm) ∧
    Store.Destroy st sid = (st, some GoError.noSession) ∧
    (Store.Destroy st sid2).2 = none := by
  refine ⟨?_, ?_, ?_, ?_⟩ <;>
    simp [Store.Create, Store.Restore, Store.Destroy, hv, hv2]

theorem c9_malformed_witness :
    Store.Create Init badU 5 0 = (Init, Session.zero, some GoError.poorForm) ∧
    Store.Restore Init badU 7 = (Init, Session.zero, some GoError.poorForm) ∧
    Store.Destroy Init badU = (Init, some GoError.noSession) ∧
    (Store.Destroy Init u1).2 = none :=
  c9_malformed Init badU u1 5 0 7 (by decide) (by decide)

/-- C10 counterexample: after creating a session, writing a key through the
returned copy's value-store reference — the caller mutating its copy, with
no actor command involved — changes the authoritative table entry's data
contents from empty to holding that key, so mutating a returned copy does
change the authoritative entry. -/
theorem c10_counterexample :
    entryContents (command.create Init u1 (5 * second) 0).1 u1 = [] ∧
    entryContents { (command.create Init u1 (5 * second) 0).1 with
        heap := heapWrite (command.create Init u1 (5 * second) 0).1.heap
          (command.create Init u1 (5 * second) 0).2.data kx 7 } u1
      = [(kx, 7)] ∧
    ([] : ValueStore) ≠ [(kx, 7)] := by
  decide

/-- C10 (amended): a returned Session copy shares its value store with the
authoritative table entry by reference; writing a key through the copy's
reference updates the entry's data contents directly, without any actor
command, while the session map itself — every scalar field of the entry —
is untouched by such a write. -/
theorem c10_shared_data (st : Store) (sid : UUID) (s copy : Session)
    (r : DataRef) (vs : ValueStore) (key : Key) (v : Value)
    (hs : mapLookup st.sessions sid = some s) (hcopy : copy.data = s.data)
    (hr : s.data = some r) (hheap : heapFind st.heap r = some vs) :
    ({ st with heap := heapWrite st.heap copy.data key v }).sessions
        = st.sessions ∧
    entryContents { st with heap := heapWrite st.heap copy.data key v } sid
        = kvInsert (entryContents st sid) key v := by
  refine ⟨rfl, ?_⟩
  unfold entryContents
  dsimp only
  rw [hs]
  simp only [hcopy, hr, heapWrite, heapContents]
  rw [heapFind_update, hheap]
  rfl

theorem c10_shared_data_witness :
    ({ (command.create Init u1 (5 * second) 0).1 with
       heap := heapWrite (command.create Init u1 (5 * second) 0).1.heap
         (command.create Init u1 (5 * second) 0).2.data kx 7 }).sessions
      = (command.create Init u1 (5 * second) 0).1.sessions ∧
    entryContents { (command.create Init u1 (5 * second) 0).1 with
        heap := heapWrite (command.create Init u1 (5 * second) 0).1.heap
          (command.create Init u1 (5 * second) 0).2.data kx 7 } u1
      = kvInsert (entryContents (command.create Init u1 (5 * second) 0).1 u1)
          kx 7 :=
  c10_shared_data (command.create Init u1 (5 * second) 0).1 u1
    (command.create Init u1 (5 * second) 0).2
    (command.create Init u1 (5 * second) 0).2 0 [] kx 7
    (by decide) (by decide) (by decide) (by decide)
